import Mathlib

/-!
A verification development for the WhatsApp chat-log preprocessing pipeline
of `src/preprocessing.py`: format detection (`detect_format_and_pattern`),
message segmentation (`re.finditer` over the format's timestamp regex),
date normalization (`try_parse_datetime` over ordered `strptime` layouts),
sender/body splitting (the `^([\w\W]+?):\s` match), and record assembly
(`pd.DataFrame` construction, `dropna`, `pd.to_datetime(errors='coerce')`,
derived calendar columns).

Modelling conventions:
* text is `List Char`; Python byte/str handling outside the parser (zip
  extraction, utf-8 decoding) is passed in as data;
* the regular expressions of the source are embedded as explicit
  backtracking matchers whose candidate lists are ordered exactly as the
  Python `re` engine explores alternatives (greedy quantifiers try the
  longer repetition first, `?` tries presence before absence, lazy `.*?`
  and `[\w\W]+?` try the shortest extension first);
* `\d` is modelled as the ASCII digits and `[APMapm]` literally; `\s` and
  `str.strip()` use the Python whitespace codepoint set;
* `datetime.strptime` is embedded following CPython `Lib/_strptime.py`:
  each directive is an ordered alternation, the whole layout must consume
  the entire string ("unconverted data remains" otherwise), and the
  `datetime` constructor's range validation turns impossible dates into
  parse failures;
* `pd.to_datetime(column, errors='coerce')` keeps `datetime` values and
  re-parses leftover strings with pandas' general parser; that parser is
  not part of this repository, so the pipeline is parameterized by the
  string-coercion function `pdParse`, and a concrete fragment of it
  (the ISO-8601 fast path, which every pandas version parses) is modelled
  separately for closed evaluations.
-/

namespace WAChat

/-- The whitespace codepoints of Python: what the `re` module's `\s` matches
in `str` patterns and what `str.strip()` removes. -/
def wsCodes : List Nat :=
  [9, 10, 11, 12, 13, 28, 29, 30, 31, 32, 0x85, 0xA0, 0x1680,
   0x2000, 0x2001, 0x2002, 0x2003, 0x2004, 0x2005, 0x2006, 0x2007, 0x2008,
   0x2009, 0x200A, 0x2028, 0x2029, 0x202F, 0x205F, 0x3000]

/-- Python's `\s` / `str.isspace` character test. -/
def pyWs (c : Char) : Bool := wsCodes.contains c.toNat

/-- Python `str.strip()`: remove leading and trailing whitespace. -/
def pyStrip (l : List Char) : List Char :=
  ((l.dropWhile pyWs).reverse.dropWhile pyWs).reverse

/-- First pass of line-ending normalization: `txt.replace('\r\n', '\n')`. -/
def replCRLF : List Char → List Char
  | [] => []
  | '\r' :: '\n' :: r => '\n' :: replCRLF r
  | c :: r => c :: replCRLF r

/-- Python `txt.replace('\r\n', '\n').replace('\r', '\n')` (preprocessing.py line 120). -/
def normNL (l : List Char) : List Char :=
  (replCRLF l).map (fun c => if c = '\r' then '\n' else c)

/-! ## Backtracking regex matchers

A `Matcher` maps an input suffix to the list of possible remainders after a
match of the sub-pattern, in the order the Python `re` backtracking engine
would try them; the overall match at a position is the head of the full
pattern's candidate list. -/

def Matcher : Type := List Char → List (List Char)

/-- The empty pattern. -/
def mEps : Matcher := fun l => [l]

/-- A single-character class. -/
def mChar (p : Char → Bool) : Matcher :=
  fun l => match l with
  | [] => []
  | c :: r => if p c then [r] else []

/-- Concatenation of patterns: every candidate of the first continues into
the second, preserving the backtracking order. -/
def mSeq (a b : Matcher) : Matcher := fun l => (a l).flatMap b

/-- Ordered alternation: all candidates of the first alternative precede
those of the second. -/
def mAlt (a b : Matcher) : Matcher := fun l => a l ++ b l

/-- Greedy `?`: presence is tried before absence. -/
def mOpt (a : Matcher) : Matcher := mAlt a mEps

/-- Exactly `n` repetitions. -/
def mRepeat (a : Matcher) : Nat → Matcher
  | 0 => mEps
  | n + 1 => mSeq a (mRepeat a n)

/-- Greedy counted repetition `a{lo,hi}`: the longer repetition count is
tried first, as the `re` engine does. -/
def mRange (a : Matcher) (lo : Nat) : Nat → Matcher
  | 0 => mRepeat a lo
  | hi + 1 => if hi + 1 ≤ lo then mRepeat a lo
              else mAlt (mRepeat a (hi + 1)) (mRange a lo hi)

def mDigit : Matcher := mChar Char.isDigit

def mLit (c : Char) : Matcher := mChar (fun x => x == c)

def mWs : Matcher := mChar pyWs

/-- The `[APMapm]` character class. -/
def isAPM (c : Char) : Bool := ['A', 'P', 'M', 'a', 'p', 'm'].contains c

/-- Pattern `\d{1,2}/\d{1,2}/\d{2,4},\s\d{1,2}:\d{2}` — the shared leading part of the
Android detection regex (preprocessing.py line 78) and of the Android split
regex (lines 83 and 133). -/
def aStampCore : Matcher :=
  mSeq (mRange mDigit 1 2) (mSeq (mLit '/') (mSeq (mRange mDigit 1 2)
    (mSeq (mLit '/') (mSeq (mRange mDigit 2 4) (mSeq (mLit ',') (mSeq mWs
      (mSeq (mRange mDigit 1 2) (mSeq (mLit ':') (mRepeat mDigit 2)))))))))

/-- Pattern `\s-\s`, the literal separator tail of the Android patterns. -/
def aTrailer : Matcher := mSeq mWs (mSeq (mLit '-') mWs)

/-- Group `(?:\s?[APMapm]{2})?` of the Android split regex. -/
def aOptAmpmSplit : Matcher := mOpt (mSeq (mOpt mWs) (mRepeat (mChar isAPM) 2))

/-- Group `(?:\s[APMapm]{2})?` of the Android detection regex (the whitespace is
not optional there). -/
def aOptAmpmDetect : Matcher := mOpt (mSeq mWs (mRepeat (mChar isAPM) 2))

/-- Group 1 of the Android split regex
`(\d{1,2}/\d{1,2}/\d{2,4},\s\d{1,2}:\d{2}(?:\s?[APMapm]{2})?)`. -/
def aGroupM : Matcher := mSeq aStampCore aOptAmpmSplit

/-- The Android detection pattern
`\d{1,2}/\d{1,2}/\d{2,4},\s\d{1,2}:\d{2}(?:\s[APMapm]{2})?\s-\s`
(anchoring `^` is applied by the multiline search below). -/
def aDetectM : Matcher := mSeq aStampCore (mSeq aOptAmpmDetect aTrailer)

/-- A regex match at one position: offset and length of group 1 within the
match, and the length of the whole match. -/
structure MRes where
  gOff : Nat
  gLen : Nat
  len : Nat
  deriving DecidableEq, Repr

/-- Match of the Android split regex at the start of `l`: the first group-1
candidate whose continuation completes `\s-\s` wins, exactly as the `re`
backtracking engine selects it. -/
def aMatchAt (l : List Char) : Option MRes :=
  match (aGroupM l).find? (fun r => !(aTrailer r).isEmpty) with
  | none => none
  | some r =>
    match (aTrailer r).head? with
    | none => none
    | some r2 => some ⟨0, l.length - r.length, l.length - r2.length⟩

/-- Lazy scan of `(.*?)\]\s` after an opening `[`: the smallest number of
non-newline characters followed by `]` and one whitespace character. -/
def iScan : List Char → Option Nat
  | c :: c2 :: r =>
      if c == ']' && pyWs c2 then some 0
      else if c == '\n' then none
      else (iScan (c2 :: r)).map (· + 1)
  | _ => none

/-- Match of the iPhone split regex `\[(.*?)\]\s` at the start of `l`
(preprocessing.py lines 86 and 160). -/
def iMatchAt (l : List Char) : Option MRes :=
  match l with
  | '[' :: rest => (iScan rest).map (fun k => ⟨1, k, k + 3⟩)
  | _ => none

/-- The scan loop of `re.finditer`, fuelled for structural recursion: at
each position try a match; a match is emitted and the scan resumes at its
end (non-overlapping, leftmost), otherwise the scan advances one position.
One unit of fuel is spent per character consumed, so `l.length` fuel always
suffices. -/
def finditerF (matchAt : List Char → Option MRes) : Nat → List Char → Nat → List (Nat × MRes)
  | 0, _, _ => []
  | fuel + 1, l, pos =>
    match l with
    | [] => []
    | c :: rest =>
      match matchAt (c :: rest) with
      | some m =>
        if m.len = 0 then (pos, m) :: finditerF matchAt fuel rest (pos + 1)
        else (pos, m) :: finditerF matchAt fuel ((c :: rest).drop m.len) (pos + m.len)
      | none => finditerF matchAt fuel rest (pos + 1)

/-- Model of `re.finditer` over the whole text. -/
def finditer (matchAt : List Char → Option MRes) (l : List Char) (pos : Nat) :
    List (Nat × MRes) :=
  finditerF matchAt l.length l pos

/-- Tail of a multiline `^`-anchored search: test the pattern at every
position that follows a newline. -/
def searchTail (p : List Char → Bool) : List Char → Bool
  | [] => false
  | c :: r => (c == '\n' && p r) || searchTail p r

/-- Model of `re.search` of a `^`-anchored pattern with `re.MULTILINE`: the pattern
may match at the start of the text or right after any newline. -/
def searchML (p : List Char → Bool) (l : List Char) : Bool := p l || searchTail p l

/-- Does the Android detection pattern match here? -/
def aDetectAt (l : List Char) : Bool := !(aDetectM l).isEmpty

/-- Does the iPhone detection pattern `\[.*?\]\s` match here? -/
def iDetectAt (l : List Char) : Bool := (iMatchAt l).isSome

/-- The tagged format variant returned by `detect_format_and_pattern`. -/
inductive FmtKind
  | android
  | iphone
  | unknown
  deriving DecidableEq, Repr

/-- Function `detect_format_and_pattern` (preprocessing.py lines 72-87): Android is
tried first, then iPhone; neither gives `unknown` (returned with no split
pattern). -/
def detectFormat (l : List Char) : FmtKind :=
  if searchML aDetectAt l then .android
  else if searchML iDetectAt l then .iphone
  else .unknown

/-! ## `datetime.strptime`, after CPython `Lib/_strptime.py`

Each `%`-directive of a layout compiles to an ordered regex alternation
(`TimeRE`); a whitespace run in the layout matches `\s+`; the compiled
regex is matched at the start of the string with backtracking, and the
parse fails when the first full-pattern match does not consume the whole
string ("unconverted data remains") or when the captured fields do not
form a valid `datetime` (the constructor raises, which
`try_parse_datetime` catches). -/

/-- Numeric value of an ASCII digit. -/
def dVal (c : Char) : Nat := c.toNat - 48

/-- Class `[1-9]`. -/
def isD19 (c : Char) : Bool := c.isDigit && !(c == '0')

/-- Directive `%d`, compiled as `3[01]|[12]\d|0[1-9]|[1-9]| [1-9]`: candidate
(value, remainder) pairs in alternation order. -/
def pDay (l : List Char) : List (Nat × List Char) :=
  (match l with
   | '3' :: b :: r => if b == '0' || b == '1' then [(30 + dVal b, r)] else []
   | _ => []) ++
  (match l with
   | a :: b :: r => if (a == '1' || a == '2') && b.isDigit then [(10 * dVal a + dVal b, r)] else []
   | _ => []) ++
  (match l with
   | '0' :: b :: r => if isD19 b then [(dVal b, r)] else []
   | _ => []) ++
  (match l with
   | a :: r => if isD19 a then [(dVal a, r)] else []
   | _ => []) ++
  (match l with
   | ' ' :: b :: r => if isD19 b then [(dVal b, r)] else []
   | _ => [])

/-- Directives `%m` and `%I` share the compiled regex `1[0-2]|0[1-9]|[1-9]`. -/
def pOne12 (l : List Char) : List (Nat × List Char) :=
  (match l with
   | '1' :: b :: r => if b == '0' || b == '1' || b == '2' then [(10 + dVal b, r)] else []
   | _ => []) ++
  (match l with
   | '0' :: b :: r => if isD19 b then [(dVal b, r)] else []
   | _ => []) ++
  (match l with
   | a :: r => if isD19 a then [(dVal a, r)] else []
   | _ => [])

/-- Directive `%y`, compiled as `\d\d`. -/
def pY2 (l : List Char) : List (Nat × List Char) :=
  match l with
  | a :: b :: r => if a.isDigit && b.isDigit then [(10 * dVal a + dVal b, r)] else []
  | _ => []

/-- Directive `%Y`, compiled as `\d\d\d\d`. -/
def pY4 (l : List Char) : List (Nat × List Char) :=
  match l with
  | a :: b :: c :: d :: r =>
      if a.isDigit && b.isDigit && c.isDigit && d.isDigit then
        [(1000 * dVal a + 100 * dVal b + 10 * dVal c + dVal d, r)]
      else []
  | _ => []

/-- Directive `%H`, compiled as `2[0-3]|[0-1]\d|\d`. -/
def pH24 (l : List Char) : List (Nat × List Char) :=
  (match l with
   | '2' :: b :: r => if b == '0' || b == '1' || b == '2' || b == '3' then [(20 + dVal b, r)] else []
   | _ => []) ++
  (match l with
   | a :: b :: r => if (a == '0' || a == '1') && b.isDigit then [(10 * dVal a + dVal b, r)] else []
   | _ => []) ++
  (match l with
   | a :: r => if a.isDigit then [(dVal a, r)] else []
   | _ => [])

/-- Directive `%M`, compiled as `[0-5]\d|\d`. -/
def pMin59 (l : List Char) : List (Nat × List Char) :=
  (match l with
   | a :: b :: r => if (a.isDigit && dVal a ≤ 5) && b.isDigit then [(10 * dVal a + dVal b, r)] else []
   | _ => []) ++
  (match l with
   | a :: r => if a.isDigit then [(dVal a, r)] else []
   | _ => [])

/-- Directive `%S`, compiled as `6[0-1]|[0-5]\d|\d`. -/
def pSec61 (l : List Char) : List (Nat × List Char) :=
  (match l with
   | '6' :: b :: r => if b == '0' || b == '1' then [(60 + dVal b, r)] else []
   | _ => []) ++
  (match l with
   | a :: b :: r => if (a.isDigit && dVal a ≤ 5) && b.isDigit then [(10 * dVal a + dVal b, r)] else []
   | _ => []) ++
  (match l with
   | a :: r => if a.isDigit then [(dVal a, r)] else []
   | _ => [])

/-- Directive `%p`, compiled from the locale AM/PM strings as `AM|PM` and matched
case-insensitively (the whole strptime regex carries `re.IGNORECASE`);
`true` means PM. -/
def pAmpm (l : List Char) : List (Bool × List Char) :=
  (match l with
   | a :: b :: r => if (a == 'A' || a == 'a') && (b == 'M' || b == 'm') then [(false, r)] else []
   | _ => []) ++
  (match l with
   | a :: b :: r => if (a == 'P' || a == 'p') && (b == 'M' || b == 'm') then [(true, r)] else []
   | _ => [])

/-- Length of the leading whitespace run. -/
def wsRun : List Char → Nat
  | [] => 0
  | c :: r => if pyWs c then wsRun r + 1 else 0

/-- A whitespace run in the layout matches `\s+`, greedily (the longest
consumption is the first candidate). -/
def pWsPlus (l : List Char) : List (List Char) :=
  (List.range (wsRun l)).map (fun i => l.drop (wsRun l - i))

/-- The captured directive values of a layout match. -/
structure Caps where
  cY : Option Nat := none
  cy : Option Nat := none
  cm : Option Nat := none
  cd : Option Nat := none
  cH : Option Nat := none
  cI : Option Nat := none
  cM : Option Nat := none
  cS : Option Nat := none
  cp : Option Bool := none
  deriving DecidableEq, Repr

/-- One token of a strptime layout: a literal character, a whitespace run,
or a `%`-directive. -/
inductive FTok
  | lit (c : Char)
  | wsp
  | dd
  | mo
  | y2
  | y4
  | h24
  | h12
  | mi
  | se
  | ampm
  deriving DecidableEq, Repr

/-- Candidates for one layout token (the literals of the layouts here are
`/`, `,` and `:`, unaffected by `re.IGNORECASE`). -/
def stepTok : FTok → Caps → List Char → List (Caps × List Char)
  | .lit c, st, l =>
      (match l with
       | x :: r => if x == c then [(st, r)] else []
       | [] => [])
  | .wsp, st, l => (pWsPlus l).map (fun r => (st, r))
  | .dd, st, l => (pDay l).map (fun x => ({ st with cd := some x.1 }, x.2))
  | .mo, st, l => (pOne12 l).map (fun x => ({ st with cm := some x.1 }, x.2))
  | .y2, st, l => (pY2 l).map (fun x => ({ st with cy := some x.1 }, x.2))
  | .y4, st, l => (pY4 l).map (fun x => ({ st with cY := some x.1 }, x.2))
  | .h24, st, l => (pH24 l).map (fun x => ({ st with cH := some x.1 }, x.2))
  | .h12, st, l => (pOne12 l).map (fun x => ({ st with cI := some x.1 }, x.2))
  | .mi, st, l => (pMin59 l).map (fun x => ({ st with cM := some x.1 }, x.2))
  | .se, st, l => (pSec61 l).map (fun x => ({ st with cS := some x.1 }, x.2))
  | .ampm, st, l => (pAmpm l).map (fun x => ({ st with cp := some x.1 }, x.2))

/-- Backtracking match of a whole layout: candidate (captures, remainder)
pairs in the order the regex engine explores them. -/
def runFmt : List FTok → Caps → List Char → List (Caps × List Char)
  | [], st, l => [(st, l)]
  | t :: ts, st, l => (stepTok t st l).flatMap (fun x => runFmt ts x.1 x.2)

/-- The canonical point-in-time value (timezone-naive, as in the source). -/
structure DateTime where
  year : Nat
  month : Nat
  day : Nat
  hour : Nat
  minute : Nat
  second : Nat
  deriving DecidableEq, Repr

def isLeap (y : Nat) : Bool := y % 4 == 0 && (y % 100 != 0 || y % 400 == 0)

def daysInMonth (y m : Nat) : Nat :=
  if m == 2 then (if isLeap y then 29 else 28)
  else if [4, 6, 9, 11].contains m then 30 else 31

/-- Assemble the captured values as `_strptime` does (`%y` century rule,
`%I`+`%p` hour-of-day rule) and apply the `datetime` constructor's range
validation; an out-of-range field means the parse attempt raises, which the
caller treats as failure. -/
def buildDT (st : Caps) : Option DateTime :=
  let year := match st.cY with
    | some v => v
    | none => match st.cy with
      | some v => if v ≤ 68 then v + 2000 else v + 1900
      | none => 1900
  let month := st.cm.getD 1
  let day := st.cd.getD 1
  let hour := match st.cH with
    | some v => v
    | none => match st.cI with
      | some v => match st.cp with
        | some true => if v == 12 then 12 else v + 12
        | _ => if v == 12 then 0 else v
      | none => 0
  let minute := st.cM.getD 0
  let second := st.cS.getD 0
  if 1 ≤ year ∧ year ≤ 9999 ∧ 1 ≤ month ∧ month ≤ 12 ∧ 1 ≤ day ∧
      day ≤ daysInMonth year month ∧ hour ≤ 23 ∧ minute ≤ 59 ∧ second ≤ 59 then
    some ⟨year, month, day, hour, minute, second⟩
  else none

/-- Model of `datetime.strptime(s, fmt)` as an `Option`: the first full-pattern match
must consume the whole string, then the fields must form a valid datetime. -/
def strptimeM (toks : List FTok) (l : List Char) : Option DateTime :=
  match (runFmt toks {} l).head? with
  | none => none
  | some x => if x.2.isEmpty then buildDT x.1 else none

/-- Function `try_parse_datetime` (preprocessing.py lines 61-70): strip the string,
try each layout in order, return the first success, `none` if all fail. -/
def tryParse (fmts : List (List FTok)) (l : List Char) : Option DateTime :=
  fmts.findSome? (fun f => strptimeM f (pyStrip l))

/-- Layout `"%d/%m/%Y, %H:%M"`. -/
def fmtDMY4HM : List FTok :=
  [.dd, .lit '/', .mo, .lit '/', .y4, .lit ',', .wsp, .h24, .lit ':', .mi]

/-- Layout `"%d/%m/%Y, %I:%M %p"`. -/
def fmtDMY4IMp : List FTok :=
  [.dd, .lit '/', .mo, .lit '/', .y4, .lit ',', .wsp, .h12, .lit ':', .mi, .wsp, .ampm]

/-- Layout `"%d/%m/%y, %H:%M"`. -/
def fmtDMY2HM : List FTok :=
  [.dd, .lit '/', .mo, .lit '/', .y2, .lit ',', .wsp, .h24, .lit ':', .mi]

/-- Layout `"%d/%m/%y, %I:%M %p"`. -/
def fmtDMY2IMp : List FTok :=
  [.dd, .lit '/', .mo, .lit '/', .y2, .lit ',', .wsp, .h12, .lit ':', .mi, .wsp, .ampm]

/-- Layout `"%d/%m/%y, %I:%M:%S %p"`. -/
def fmtDMY2IMSp : List FTok :=
  [.dd, .lit '/', .mo, .lit '/', .y2, .lit ',', .wsp, .h12, .lit ':', .mi, .lit ':', .se, .wsp, .ampm]

/-- Layout `"%d/%m/%Y, %I:%M:%S %p"`. -/
def fmtDMY4IMSp : List FTok :=
  [.dd, .lit '/', .mo, .lit '/', .y4, .lit ',', .wsp, .h12, .lit ':', .mi, .lit ':', .se, .wsp, .ampm]

/-- Layout `"%d/%m/%y, %H:%M:%S"`. -/
def fmtDMY2HMS : List FTok :=
  [.dd, .lit '/', .mo, .lit '/', .y2, .lit ',', .wsp, .h24, .lit ':', .mi, .lit ':', .se]

/-- Layout `"%d/%m/%Y, %H:%M:%S"`. -/
def fmtDMY4HMS : List FTok :=
  [.dd, .lit '/', .mo, .lit '/', .y4, .lit ',', .wsp, .h24, .lit ':', .mi, .lit ':', .se]

/-- The Android branch's `date_fmts` (preprocessing.py lines 127-132), in
source order. -/
def androidFmts : List (List FTok) := [fmtDMY4HM, fmtDMY4IMp, fmtDMY2HM, fmtDMY2IMp]

/-- The iPhone branch's `date_fmts` (preprocessing.py lines 149-158), in
source order. -/
def iphoneFmts : List (List FTok) :=
  [fmtDMY2IMSp, fmtDMY2IMp, fmtDMY4IMSp, fmtDMY4IMp, fmtDMY2HMS, fmtDMY4HMS, fmtDMY2HM, fmtDMY4HM]

/-! ## Segmentation, sender/body splitting and record assembly -/

/-- An entry of the `dates` list (lines 145 and 172): the parsed datetime, or
the original timestamp string unchanged when every layout failed. -/
inductive DateVal
  | dt (d : DateTime)
  | raw (s : List Char)
  deriving DecidableEq, Repr

/-- Expression `date_obj if date_obj else date_str` (lines 144-145 / 171-172). -/
def mkDateVal (fmts : List (List FTok)) (ds : List Char) : DateVal :=
  match tryParse fmts ds with
  | some d => .dt d
  | none => .raw ds

/-- Slice `txt[a:b]` for `0 ≤ a ≤ b`. -/
def sliceL (l : List Char) (a b : Nat) : List Char := (l.drop a).take (b - a)

/-- The message/date extraction loop (lines 139-146 / 166-173): chunk `i` is
`txt[m_i.end() : m_(i+1).start()]` (end of text for the last match),
stripped; the date string is group 1 of match `i`. -/
def buildRaw (txtL : List Char) (fmts : List (List FTok)) :
    List (Nat × MRes) → List (DateVal × List Char)
  | [] => []
  | (s, m) :: rest =>
    let e := match rest with
      | [] => txtL.length
      | (s2, _) :: _ => s2
    let chunk := pyStrip (sliceL txtL (s + m.len) e)
    let ds := sliceL txtL (s + m.gOff) (s + m.gOff + m.gLen)
    (mkDateVal fmts ds, chunk) :: buildRaw txtL fmts rest

/-- Test for `:\s` at the head of `l`: a colon followed by one whitespace character. -/
def colonWsAt (l : List Char) : Bool :=
  match l with
  | ':' :: w :: _ => pyWs w
  | _ => false

/-- Position of the first `:\s` within `l` (`none` if there is none). -/
def fcwGo : List Char → Option Nat
  | [] => none
  | c :: r => if colonWsAt (c :: r) then some 0 else (fcwGo r).map (· + 1)

/-- The colon position selected by `re.match(r'^([\w\W]+?):\s', msg)`:
`[\w\W]` matches every character (newlines included) and the lazy `+?`
makes the group the shortest nonempty prefix followed by `:\s`, so the
selected colon is the first one at an index `≥ 1` followed by whitespace. -/
def firstColonWs (l : List Char) : Option Nat :=
  match l with
  | [] => none
  | _ :: r => (fcwGo r).map (· + 1)

def sentinelUser : String := "group_notification"

/-- The sender/body splitter (preprocessing.py lines 181-189): on a match,
`user` is group 1 and `message` the text after the match (colon, one
whitespace character); otherwise the sentinel user and the whole body. -/
def splitUser (l : List Char) : String × String :=
  match firstColonWs l with
  | some k => (⟨l.take k⟩, ⟨l.drop (k + 2)⟩)
  | none => (sentinelUser, ⟨l⟩)

/-- Value of `df['date'].dt.month_name()` for one month number. -/
def monthName (m : Nat) : String :=
  match m with
  | 1 => "January"
  | 2 => "February"
  | 3 => "March"
  | 4 => "April"
  | 5 => "May"
  | 6 => "June"
  | 7 => "July"
  | 8 => "August"
  | 9 => "September"
  | 10 => "October"
  | 11 => "November"
  | 12 => "December"
  | _ => ""

/-- A row of the final DataFrame (columns of preprocessing.py lines 191-199). -/
structure Row where
  date : DateTime
  user : String
  message : String
  year : Nat
  month : String
  day : Nat
  hour : Nat
  minute : Nat
  deriving DecidableEq, Repr

/-- A retained row with its derived calendar columns (lines 195-199). -/
def mkRow (d : DateTime) (u m : String) : Row :=
  ⟨d, u, m, d.year, monthName d.month, d.day, d.hour, d.minute⟩

/-- Model of `pd.to_datetime(df['date'], errors='coerce')` on one cell: a datetime is
kept; a leftover string is re-parsed by pandas' general parser, modelled by
the parameter `pdParse`; an unparseable cell becomes NaT (here `none`). -/
def coerceDate (pdParse : List Char → Option DateTime) : DateVal → Option DateTime
  | .dt d => some d
  | .raw s => pdParse s

/-- Lines 191-199: build the DataFrame, coerce the date column, drop NaT
rows, derive the calendar columns. The first `df.dropna(subset=['date',
'message'])` (line 192) drops nothing: every date cell is a datetime or a
string and every message a string, none of which is NA. -/
def assembleRows (pdParse : List Char → Option DateTime)
    (pre : List (DateVal × String × String)) : List Row :=
  pre.filterMap (fun x => (coerceDate pdParse x.1).map (fun d => mkRow d x.2.1 x.2.2))

def errUnsupported : String := "Unsupported WhatsApp export format or unreadable file."

def errNoAndroid : String := "No valid Android-style messages found."

def errNoIphone : String := "No valid iPhone-style messages found."

/-- The pipeline of `preprocess` on text input, up to the DataFrame columns
`date`, `user`, `message` (lines 120-189): newline normalization, format
detection, segmentation (with the classified errors of lines 123, 136, 163
and 175 as `Except.error` of the raised message), date parsing and sender
splitting. -/
def preTriples (source : String) : Except String (List (DateVal × String × String)) :=
  let txt := normNL source.data
  let fmt := detectFormat txt
  if fmt = .unknown then .error errUnsupported
  else if fmt = .android then
    let splits := finditer aMatchAt txt 0
    if splits.isEmpty then .error errNoAndroid
    else .ok ((buildRaw txt androidFmts splits).map (fun x => (x.1, splitUser x.2)))
  else if fmt = .iphone then
    let splits := finditer iMatchAt txt 0
    if splits.isEmpty then .error errNoIphone
    else .ok ((buildRaw txt iphoneFmts splits).map (fun x => (x.1, splitUser x.2)))
  else .error errUnsupported

/-- Function `preprocess` on a text source (lines 120-200): the pre-rows followed by
record assembly. `pdParse` is pandas' string parser used by
`pd.to_datetime(..., errors='coerce')` (external to the repository). -/
def preprocessA (pdParse : List Char → Option DateTime) (source : String) :
    Except String (List Row) :=
  (preTriples source).map (fun pre => assembleRows pdParse pre)

/-- The `bytes` entry of `preprocess` (lines 103-106): `extracted` stands for
`extract_txt_from_zip(source)` — `None` when the bytes cannot be opened as a
zip archive or the archive has no `.txt` entry (lines 46-59) — and `decoded`
for `source.decode("utf-8", errors="replace")`. `if not txt` falls back to
the decoded bytes when extraction returned `None` or the empty string. -/
def preprocessBytes (pdParse : List Char → Option DateTime)
    (extracted : Option String) (decoded : String) : Except String (List Row) :=
  match extracted with
  | some t => if t.isEmpty then preprocessA pdParse decoded else preprocessA pdParse t
  | none => preprocessA pdParse decoded

/-- Modelled from pandas (not code of this repository): `pd.to_datetime(x,
errors='coerce')` re-parses leftover strings with pandas' general datetime
parser. Only its ISO-8601 fast path `YYYY-MM-DD HH:MM:SS` / with `T`
separator — which every pandas version parses — is modelled; every other
string is outside the model and mapped to `none`. -/
def isoPdParse (l : List Char) : Option DateTime :=
  match l with
  | [a, b, c, d, '-', e, f, '-', g, h, sep, i, j, ':', k, n, ':', q, r] =>
    if (sep == 'T' || sep == ' ') &&
        [a, b, c, d, e, f, g, h, i, j, k, n, q, r].all Char.isDigit then
      let yr := 1000 * dVal a + 100 * dVal b + 10 * dVal c + dVal d
      let mon := 10 * dVal e + dVal f
      let day := 10 * dVal g + dVal h
      let hr := 10 * dVal i + dVal j
      let mins := 10 * dVal k + dVal n
      let secs := 10 * dVal q + dVal r
      if 1 ≤ yr ∧ 1 ≤ mon ∧ mon ≤ 12 ∧ 1 ≤ day ∧ day ≤ daysInMonth yr mon ∧
          hr ≤ 23 ∧ mins ≤ 59 ∧ secs ≤ 59 then
        some ⟨yr, mon, day, hr, mins, secs⟩
      else none
    else none
  | _ => none

/-! ## Spec-side reference definitions (for refutations) -/

/-- Test for `: ` (colon then a space character) at the head of `l` — the literal
"identifier: " colon-space separator as the spec words it. -/
def specColonSpaceAt (l : List Char) : Bool :=
  match l with
  | ':' :: ' ' :: _ => true
  | _ => false

def scsGo : List Char → Option Nat
  | [] => none
  | c :: r => if specColonSpaceAt (c :: r) then some 0 else (scsGo r).map (· + 1)

/-- The Sender/Body Splitter as the spec words it (§4.5): the prefix up to
the first colon-space sequence becomes the user, the remainder the message;
`none` when the body has no "identifier: " (colon-space) prefix. -/
def specColonSpaceSplit (l : List Char) : Option (String × String) :=
  match l with
  | [] => none
  | _ :: r => (scsGo r).map (fun j => (⟨l.take (j + 1)⟩, ⟨l.drop (j + 3)⟩))

/-- Modelled from the spec (§4.2, Convention B): a bracketed timestamp of
the form `[D/M/YY, H:MM:SS AM/PM]` at the start of a line. -/
def specIphoneTsM : Matcher :=
  mSeq (mLit '[') (mSeq (mRange mDigit 1 2) (mSeq (mLit '/') (mSeq (mRange mDigit 1 2)
    (mSeq (mLit '/') (mSeq (mRepeat mDigit 2) (mSeq (mLit ',') (mSeq (mLit ' ')
      (mSeq (mRange mDigit 1 2) (mSeq (mLit ':') (mSeq (mRepeat mDigit 2)
        (mSeq (mLit ':') (mSeq (mRepeat mDigit 2) (mSeq (mLit ' ')
          (mSeq (mAlt (mLit 'A') (mLit 'P')) (mSeq (mLit 'M') (mLit ']'))))))))))))))))

/-- Does a spec-form bracketed timestamp start here? -/
def specIphoneTsAt (l : List Char) : Bool := !(specIphoneTsM l).isEmpty

/-! ## Synthetic transcripts for the round-trip segmentation property -/

/-- A synthetic transcript: the concatenation of `(header, body)` messages. -/
def flatMsgs : List (List Char × List Char) → List Char
  | [] => []
  | (h, b) :: r => h ++ b ++ flatMsgs r

/-- Hypotheses of the round-trip segmentation property, decidably: every
header is nonempty and is exactly what the Android split regex matches at
its own position in the transcript (a valid Convention-A timestamp header,
group 1 being the header minus the 3-character `\s-\s` tail), and no match
starts at any position inside a body. -/
def segHyp : List (List Char × List Char) → Bool
  | [] => true
  | (h, b) :: r =>
      decide (0 < h.length) &&
      decide (aMatchAt (h ++ b ++ flatMsgs r) = some ⟨0, h.length - 3, h.length⟩) &&
      (List.range b.length).all
        (fun k => decide (aMatchAt ((b ++ flatMsgs r).drop k) = none)) &&
      segHyp r

/-- A concrete two-message synthetic transcript with a multi-line first
body. -/
def c5msgs : List (List Char × List Char) :=
  [("5/1/24, 9:00 am - ".data, "A: Hello\nthere\n".data),
   ("5/1/24, 9:05 am - ".data, "B: Hi!".data)]

/-! ## Lemmas on the sender/body splitter -/

theorem fcwGo_eq_none_iff (r : List Char) :
    fcwGo r = none ↔ ∀ i, colonWsAt (r.drop i) = false := by
  induction r with
  | nil => simp [fcwGo, colonWsAt]
  | cons c t ih =>
    rw [fcwGo]
    cases h : colonWsAt (c :: t) with
    | true =>
      simp only [h, if_true]
      constructor
      · intro hf; cases hf
      · intro hall; exact absurd (hall 0) (by simp [h])
    | false =>
      simp only [h, Bool.false_eq_true, if_false, Option.map_eq_none']
      constructor
      · intro hn i
        cases i with
        | zero => simpa using h
        | succ i => simpa using ih.mp hn i
      · intro hall
        exact ih.mpr (fun i => by simpa using hall (i + 1))

theorem fcwGo_eq_some_iff (r : List Char) (j : Nat) :
    fcwGo r = some j ↔
      colonWsAt (r.drop j) = true ∧ ∀ i < j, colonWsAt (r.drop i) = false := by
  induction r generalizing j with
  | nil => simp [fcwGo, colonWsAt]
  | cons c t ih =>
    rw [fcwGo]
    cases h : colonWsAt (c :: t) with
    | true =>
      simp only [h, if_true]
      constructor
      · intro he
        cases he
        exact ⟨by simpa using h, by omega⟩
      · rintro ⟨h1, h2⟩
        cases j with
        | zero => rfl
        | succ j => exact absurd (h2 0 (by omega)) (by simp [h])
    | false =>
      simp only [h, Bool.false_eq_true, if_false, Option.map_eq_some']
      constructor
      · rintro ⟨j0, hj0, rfl⟩
        obtain ⟨ha, hb⟩ := (ih j0).mp hj0
        refine ⟨by simpa using ha, ?_⟩
        intro i hi
        cases i with
        | zero => simpa using h
        | succ i => simpa using hb i (by omega)
      · rintro ⟨h1, h2⟩
        cases j with
        | zero => exact absurd (by simpa using h1) (by simp [h])
        | succ j =>
          refine ⟨j, (ih j).mpr ⟨by simpa using h1, ?_⟩, rfl⟩
          intro i hi
          simpa using h2 (i + 1) (by omega)

theorem firstColonWs_eq_none_iff (l : List Char) :
    firstColonWs l = none ↔ ∀ j, 1 ≤ j → colonWsAt (l.drop j) = false := by
  cases l with
  | nil =>
    simp only [firstColonWs, true_iff]
    intro j hj
    simp [colonWsAt]
  | cons c t =>
    rw [firstColonWs]
    simp only [Option.map_eq_none']
    rw [fcwGo_eq_none_iff]
    constructor
    · intro hall j hj
      cases j with
      | zero => omega
      | succ j => simpa using hall j
    · intro hall i
      simpa using hall (i + 1) (by omega)

theorem firstColonWs_eq_some_iff (l : List Char) (k : Nat) :
    firstColonWs l = some k ↔
      1 ≤ k ∧ colonWsAt (l.drop k) = true ∧
        ∀ j, 1 ≤ j → j < k → colonWsAt (l.drop j) = false := by
  cases l with
  | nil => simp [firstColonWs, colonWsAt]
  | cons c t =>
    rw [firstColonWs]
    simp only [Option.map_eq_some']
    constructor
    · rintro ⟨j0, hj0, rfl⟩
      obtain ⟨ha, hb⟩ := (fcwGo_eq_some_iff t j0).mp hj0
      refine ⟨by omega, by simpa using ha, ?_⟩
      intro j h1 h2
      cases j with
      | zero => omega
      | succ j => simpa using hb j (by omega)
    · rintro ⟨h1, h2, h3⟩
      cases k with
      | zero => omega
      | succ k =>
        refine ⟨k, (fcwGo_eq_some_iff t k).mpr ⟨by simpa using h2, ?_⟩, rfl⟩
        intro i hi
        simpa using h3 (i + 1) (by omega) (by omega)

/-- If a `:\s` pair starts at index `k` of `l` then `k + 2 ≤ l.length`. -/
theorem colonWsAt_lt_length (l : List Char) (k : Nat)
    (h : colonWsAt (l.drop k) = true) : k + 2 ≤ l.length := by
  have h2 : 2 ≤ (l.drop k).length := by
    rcases hm : l.drop k with _ | ⟨a, _ | ⟨b, r⟩⟩ <;> simp_all [colonWsAt]
  have h3 := List.length_drop k l
  omega

/-! ## C6 and C10: the sender/body splitter -/

/-- C6 (amended): a chunk body with no colon-whitespace pair at any
positive index is attributed to the sentinel user with the untouched body
as message; and the user of any chunk is never the empty string. -/
theorem c6_sentinel_attribution (l : List Char) :
    ((∀ j < l.length, 1 ≤ j → colonWsAt (l.drop j) = false) →
      splitUser l = (sentinelUser, String.mk l)) ∧ (splitUser l).1 ≠ "" := by
  constructor
  · intro h
    have hn : firstColonWs l = none := by
      rw [firstColonWs_eq_none_iff]
      intro j hj
      by_cases hjl : j < l.length
      · exact h j hjl hj
      · rw [List.drop_eq_nil_of_le (by omega)]
        rfl
    simp [splitUser, hn]
  · cases hk : firstColonWs l with
    | none => simp [splitUser, hk, sentinelUser]
    | some k =>
      obtain ⟨h1, h2, _⟩ := (firstColonWs_eq_some_iff l k).mp hk
      have hlen : k + 2 ≤ l.length := colonWsAt_lt_length l k h2
      simp only [splitUser, hk, ne_eq]
      intro he
      have : (l.take k).length = 0 := by
        have := congrArg String.data he
        simpa using this
      rw [List.length_take] at this
      omega

/-- C6 counterexample: the body `"A:\tB"` has no colon-space (`": "`)
prefix — the spec-side splitter finds nothing — yet the code's `:\s`
pattern matches the tab, so the user is `"A"`, not the sentinel. -/
theorem c6_counterexample :
    specColonSpaceSplit "A:\tB".data = none ∧
      splitUser "A:\tB".data = ("A", "B") ∧
      splitUser "A:\tB".data ≠ (sentinelUser, "A:\tB") := by
  exact ⟨rfl, rfl, by decide⟩

theorem c6_witness :
    (∀ j < "Alice added Bob".data.length, 1 ≤ j →
        colonWsAt ("Alice added Bob".data.drop j) = false) ∧
      splitUser "Alice added Bob".data = (sentinelUser, "Alice added Bob") ∧
      (splitUser "Alice added Bob".data).1 ≠ "" :=
  ⟨by decide, (c6_sentinel_attribution "Alice added Bob".data).1 (by decide),
    (c6_sentinel_attribution "Alice added Bob".data).2⟩

/-- C10 (amended): the sender pattern `([\w\W]+?):\s` matches across
newlines, but the separator is a colon followed by any whitespace character
(space, tab or newline), not only colon-space: the user is the shortest
nonempty prefix ending right before the first colon-whitespace pair at a
positive index, and the message is everything after that pair. -/
theorem c10_splitter_characterization (l : List Char) (k : Nat)
    (h1 : 1 ≤ k) (h2 : colonWsAt (l.drop k) = true)
    (h3 : ∀ j < k, 1 ≤ j → colonWsAt (l.drop j) = false) :
    splitUser l = (String.mk (l.take k), String.mk (l.drop (k + 2))) := by
  have hk : firstColonWs l = some k :=
    (firstColonWs_eq_some_iff l k).mpr ⟨h1, h2, fun j hj hjk => h3 j hjk hj⟩
  simp [splitUser, hk]

/-- C10 counterexample: in the body `"A:\nB: C"` the first colon-space
occurs on the second line (after `"A:\nB"`), but the code splits at the
colon-newline of line one: the user is `"A"`, not `"A:\nB"`. -/
theorem c10_counterexample :
    splitUser "A:\nB: C".data = ("A", "B: C") ∧
      specColonSpaceSplit "A:\nB: C".data = some ("A:\nB", "C") ∧
      (splitUser "A:\nB: C".data).1 ≠ "A:\nB" := by
  exact ⟨rfl, rfl, by decide⟩

theorem c10_witness :
    1 ≤ 5 ∧ colonWsAt ("ab\ncd: e".data.drop 5) = true ∧
      (∀ j < 5, 1 ≤ j → colonWsAt ("ab\ncd: e".data.drop j) = false) ∧
      splitUser "ab\ncd: e".data = ("ab\ncd", "e") :=
  ⟨by decide, by decide, by decide,
    c10_splitter_characterization "ab\ncd: e".data 5 (by decide) (by decide) (by decide)⟩

/-! ## C1: the concrete two-message Android scenario -/

/-- C1: on the spec's concrete input the pipeline returns exactly the two
claimed rows (for any pandas string parser — none is consulted, both dates
parse by layout). -/
theorem c1_pipeline_concrete (pdParse : List Char → Option DateTime) :
    preprocessA pdParse "5/1/24, 9:00 am - Alice: Hello\nthere\n5/1/24, 9:05 am - Bob: Hi!" =
      .ok [⟨⟨2024, 1, 5, 9, 0, 0⟩, "Alice", "Hello\nthere", 2024, "January", 5, 9, 0⟩,
           ⟨⟨2024, 1, 5, 9, 5, 0⟩, "Bob", "Hi!", 2024, "January", 5, 9, 5⟩] := rfl

/-! ## C8: bytes input that is not a readable archive -/

/-- C8 counterexample: bytes that cannot be opened as a zip archive (the
extraction step returns `None`) do not make `preprocess` fail — it decodes
the bytes as text and returns a table. -/
theorem c8_counterexample :
    preprocessBytes (fun _ => none) none "5/1/24, 9:00 am - Alice: Hi" =
      .ok [⟨⟨2024, 1, 5, 9, 0, 0⟩, "Alice", "Hi", 2024, "January", 5, 9, 0⟩] := rfl

/-- C8 (amended): when the bytes cannot be opened as a zip archive, contain
no `.txt` entry (extraction `None`), or the extracted text is empty,
`preprocess` silently falls back to decoding the raw bytes as UTF-8 text
and runs the normal text pipeline on them; no archive-specific error is
propagated. -/
theorem c8_zip_fallback (pdParse : List Char → Option DateTime) (decoded : String) :
    preprocessBytes pdParse none decoded = preprocessA pdParse decoded ∧
      preprocessBytes pdParse (some "") decoded = preprocessA pdParse decoded :=
  ⟨rfl, rfl⟩

/-! ## C9: determinism of the pipeline -/

/-- C9: two runs of the pipeline on identical inputs produce identical
tables — the pipeline is a pure function of the input text/bytes (and of
pandas' fixed string parser). -/
theorem c9_determinism (pdParse : List Char → Option DateTime)
    (extracted : Option String) (s t : String) (h : s = t) :
    preprocessA pdParse s = preprocessA pdParse t ∧
      preprocessBytes pdParse extracted s = preprocessBytes pdParse extracted t := by
  rw [h]
  exact ⟨rfl, rfl⟩

theorem c9_witness :
    preprocessA (fun _ => none) "5/1/24, 9:00 am - A: hi" =
        preprocessA (fun _ => none) "5/1/24, 9:00 am - A: hi" ∧
      preprocessBytes (fun _ => none) none "5/1/24, 9:00 am - A: hi" =
        preprocessBytes (fun _ => none) none "5/1/24, 9:00 am - A: hi" :=
  c9_determinism (fun _ => none) none "5/1/24, 9:00 am - A: hi" "5/1/24, 9:00 am - A: hi" rfl

/-! ## Step equations for `finditer` -/

theorem finditerF_nil (mA : List Char → Option MRes) (fuel pos : Nat) :
    finditerF mA fuel [] pos = [] := by
  cases fuel <;> rfl

/-- Any fuel of at least `l.length` computes the same scan. -/
theorem finditerF_fuel (mA : List Char → Option MRes) :
    ∀ f1 f2 l pos, l.length ≤ f1 → l.length ≤ f2 →
      finditerF mA f1 l pos = finditerF mA f2 l pos := by
  intro f1
  induction f1 with
  | zero =>
    intro f2 l pos h1 h2
    have hl : l = [] := by
      cases l with
      | nil => rfl
      | cons c r => simp at h1
    subst hl
    rw [finditerF_nil, finditerF_nil]
  | succ f ih =>
    intro f2 l pos h1 h2
    cases l with
    | nil => rw [finditerF_nil, finditerF_nil]
    | cons c rest =>
      cases f2 with
      | zero => simp at h2
      | succ g =>
        simp only [finditerF]
        cases hm : mA (c :: rest) with
        | none =>
          exact ih g rest (pos + 1) (by simpa using h1) (by simpa using h2)
        | some m =>
          by_cases hz : m.len = 0
          · simp only [hz, if_true]
            exact congrArg _ (ih g rest (pos + 1) (by simpa using h1) (by simpa using h2))
          · simp only [hz, if_false]
            simp only [List.length_cons] at h1 h2
            refine congrArg _ (ih g ((c :: rest).drop m.len) (pos + m.len) ?_ ?_) <;>
              simp only [List.length_drop, List.length_cons] <;> omega

theorem finditer_match_step (mA : List Char → Option MRes) (l : List Char)
    (pos : Nat) (m : MRes) (hl : l ≠ []) (hm : mA l = some m) (hz : m.len ≠ 0) :
    finditer mA l pos = (pos, m) :: finditer mA (l.drop m.len) (pos + m.len) := by
  cases l with
  | nil => exact absurd rfl hl
  | cons c rest =>
    show finditerF mA (rest.length + 1) (c :: rest) pos = _
    simp only [finditerF, hm, hz, if_false]
    refine congrArg _ (finditerF_fuel mA _ _ _ _ ?_ le_rfl)
    simp only [List.length_drop, List.length_cons]
    omega

theorem finditer_skip_one (mA : List Char → Option MRes) (c : Char)
    (rest : List Char) (pos : Nat) (hm : mA (c :: rest) = none) :
    finditer mA (c :: rest) pos = finditer mA rest (pos + 1) := by
  show finditerF mA (rest.length + 1) (c :: rest) pos = _
  simp only [finditerF, hm]
  rfl

/-! ## C2: every retained row, and only coercible rows retained -/

/-- C2 (amended): when the pipeline succeeds, the rows of the final table
are exactly the segmented pre-rows whose date cell survives the
`pd.to_datetime(errors='coerce')` pass — a parsed datetime always survives,
a leftover raw timestamp string survives exactly when pandas' general
parser handles it — and every retained row carries that (non-null) datetime
with the derived calendar columns of `mkRow`. -/
theorem c2_retained_rows (p : List Char → Option DateTime) (s : String)
    (rows : List Row) (h : preprocessA p s = .ok rows) :
    ∃ pre, preTriples s = .ok pre ∧
      ∀ r, r ∈ rows ↔
        ∃ t ∈ pre, coerceDate p t.1 = some r.date ∧ r = mkRow r.date t.2.1 t.2.2 := by
  unfold preprocessA at h
  cases hp : preTriples s with
  | error e => rw [hp] at h; simp [Except.map] at h
  | ok pre =>
    rw [hp] at h
    simp only [Except.map, Except.ok.injEq] at h
    subst h
    refine ⟨pre, rfl, ?_⟩
    intro r
    unfold assembleRows
    rw [List.mem_filterMap]
    constructor
    · rintro ⟨t, ht, hf⟩
      obtain ⟨d, hd, hmk⟩ := Option.map_eq_some'.mp hf
      have hdate : r.date = d := by rw [← hmk]; rfl
      exact ⟨t, ht, by rw [hdate]; exact hd, by rw [hdate]; exact hmk.symm⟩
    · rintro ⟨t, ht, hc, hr⟩
      refine ⟨t, ht, ?_⟩
      rw [hc, Option.map_some', ← hr]

/-- C2 counterexample: in an iPhone-classified transcript the bracketed
field `2024-12-05T10:00:00` fails every candidate layout, so it reaches the
assembler as a raw string — and pandas' coercion parses it (ISO-8601), so
the row is present in the final table, not dropped. -/
theorem c2_counterexample :
    tryParse iphoneFmts "2024-12-05T10:00:00".data = none ∧
      preTriples "[2024-12-05T10:00:00] Alice: Hi" =
        .ok [(DateVal.raw "2024-12-05T10:00:00".data, "Alice", "Hi")] ∧
      preprocessA isoPdParse "[2024-12-05T10:00:00] Alice: Hi" =
        .ok [⟨⟨2024, 12, 5, 10, 0, 0⟩, "Alice", "Hi", 2024, "December", 5, 10, 0⟩] :=
  ⟨rfl, rfl, rfl⟩

theorem c2_witness :
    ∃ pre, preTriples "5/1/24, 9:00 am - A: hi" = .ok pre ∧
      ∀ r, r ∈ [(⟨⟨2024, 1, 5, 9, 0, 0⟩, "A", "hi", 2024, "January", 5, 9, 0⟩ : Row)] ↔
        ∃ t ∈ pre, coerceDate (fun _ => none) t.1 = some r.date ∧
          r = mkRow r.date t.2.1 t.2.2 :=
  c2_retained_rows (fun _ => none) "5/1/24, 9:00 am - A: hi"
    [⟨⟨2024, 1, 5, 9, 0, 0⟩, "A", "hi", 2024, "January", 5, 9, 0⟩] rfl

/-! ## C3: the format detector -/

/-- C3 counterexample: `"[x] y"` carries no bracketed timestamp of the form
`[D/M/YY, H:MM:SS AM/PM]` on any line, yet the detector classifies it as
iPhone — the iPhone test is only `^\[.*?\]\s`. -/
theorem c3_counterexample :
    detectFormat "[x] y".data = FmtKind.iphone ∧
      searchML specIphoneTsAt "[x] y".data = false :=
  ⟨rfl, rfl⟩

/-- C3 (amended): the detector tests Android before iPhone with first match
winning; it classifies as iPhone exactly when the Android pattern matches
no line and some line starts with `[`, lazily any non-newline characters,
`]` and a whitespace character (no timestamp shape is required); when
neither matches it returns the Unknown variant and the pipeline fails with
the unsupported-format error. -/
theorem c3_detector_priority :
    (∀ l : List Char, searchML aDetectAt l = true → detectFormat l = FmtKind.android) ∧
    (∀ l : List Char, detectFormat l = FmtKind.iphone ↔
        searchML aDetectAt l = false ∧ searchML iDetectAt l = true) ∧
    (∀ l : List Char, detectFormat l = FmtKind.unknown ↔
        searchML aDetectAt l = false ∧ searchML iDetectAt l = false) ∧
    (∀ (p : List Char → Option DateTime) (s : String),
        detectFormat (normNL s.data) = FmtKind.unknown →
        preprocessA p s = .error errUnsupported) := by
  refine ⟨?_, ?_, ?_, ?_⟩
  · intro l h
    simp [detectFormat, h]
  · intro l
    unfold detectFormat
    cases ha : searchML aDetectAt l <;> cases hi : searchML iDetectAt l <;> simp
  · intro l
    unfold detectFormat
    cases ha : searchML aDetectAt l <;> cases hi : searchML iDetectAt l <;> simp
  · intro p s h
    simp only [preprocessA, preTriples]
    rw [h]
    rfl

theorem c3_witness :
    searchML aDetectAt "5/1/24, 9:00 am - A: hi\n[x] y".data = true ∧
      detectFormat "5/1/24, 9:00 am - A: hi\n[x] y".data = FmtKind.android ∧
      preprocessA (fun _ => none) "no timestamps here" = .error errUnsupported :=
  ⟨by decide, c3_detector_priority.1 "5/1/24, 9:00 am - A: hi\n[x] y".data (by decide),
    c3_detector_priority.2.2.2 (fun _ => none) "no timestamps here" (by decide)⟩

/-! ## C7: the date normalizer and the second-pass coercion -/

/-- C7 (amended): `try_parse_datetime` attempts the layouts in list order
and returns the first success; when every layout fails the original string
is kept unchanged (not null) in the date column; the assembler's coercion
pass then drops such a row exactly when pandas' general parser also fails
on the string (it parses some of them, e.g. ISO timestamps), and never
raises. -/
theorem c7_date_normalizer :
    (∀ (fmts pre suf : List (List FTok)) (f : List FTok) (s : List Char) (d : DateTime),
        fmts = pre ++ f :: suf → (∀ g ∈ pre, strptimeM g (pyStrip s) = none) →
        strptimeM f (pyStrip s) = some d → tryParse fmts s = some d) ∧
    (∀ (fmts : List (List FTok)) (s : List Char),
        (∀ g ∈ fmts, strptimeM g (pyStrip s) = none) → mkDateVal fmts s = DateVal.raw s) ∧
    (∀ (p : List Char → Option DateTime) (s : List Char) (u m : String),
        (p s = none → assembleRows p [(DateVal.raw s, u, m)] = []) ∧
        (∀ d, p s = some d → assembleRows p [(DateVal.raw s, u, m)] = [mkRow d u m])) := by
  refine ⟨?_, ?_, ?_⟩
  · intro fmts pre suf f s d hdecomp hnone hf
    subst hdecomp
    unfold tryParse
    induction pre with
    | nil => simp [List.findSome?_cons, hf]
    | cons g gs ih =>
      have hg : strptimeM g (pyStrip s) = none := hnone g (by simp)
      simp only [List.cons_append, List.findSome?_cons, hg]
      exact ih (fun g2 hg2 => hnone g2 (by simp [hg2]))
  · intro fmts s hall
    have ht : tryParse fmts s = none := by
      unfold tryParse
      exact List.findSome?_eq_none_iff.mpr hall
    simp [mkDateVal, ht]
  · intro p s u m
    constructor
    · intro hn
      simp [assembleRows, coerceDate, hn]
    · intro d hd
      simp [assembleRows, coerceDate, hd, mkRow]

/-- C7 counterexample: `2025-01-02 03:04:05` fails all iPhone layouts, so
the raw string is kept; the coercion pass then parses it (pandas handles
ISO strings) and the row is retained rather than dropped. -/
theorem c7_counterexample :
    tryParse iphoneFmts "2025-01-02 03:04:05".data = none ∧
      preprocessA isoPdParse "[2025-01-02 03:04:05] Bob: yo" =
        .ok [⟨⟨2025, 1, 2, 3, 4, 5⟩, "Bob", "yo", 2025, "January", 2, 3, 4⟩] :=
  ⟨rfl, rfl⟩

/-! ## C4: the no-messages error branch -/

theorem flatMap_ne_nil_iff {α β : Type} (l : List α) (f : α → List β) :
    l.flatMap f ≠ [] ↔ ∃ x ∈ l, f x ≠ [] := by
  rw [ne_eq, List.flatMap_eq_nil_iff]
  push_neg
  rfl

theorem isEmpty_false_of_ne_nil {α : Type} {l : List α} (h : l ≠ []) :
    l.isEmpty = false := by
  cases l with
  | nil => exact absurd rfl h
  | cons a t => rfl

theorem ne_nil_of_isEmpty_false {α : Type} {l : List α} (h : l.isEmpty = false) :
    l ≠ [] := by
  intro hc
  rw [hc] at h
  simp at h

theorem searchTail_exists (p : List Char → Bool) :
    ∀ l, searchTail p l = true → ∃ n, p (l.drop n) = true := by
  intro l
  induction l with
  | nil => intro h; simp [searchTail] at h
  | cons c rest ih =>
    intro h
    rw [searchTail, Bool.or_eq_true] at h
    rcases h with h1 | h2
    · rw [Bool.and_eq_true] at h1
      exact ⟨1, by simpa using h1.2⟩
    · obtain ⟨n, hn⟩ := ih h2
      exact ⟨n + 1, by simpa using hn⟩

theorem searchML_exists (p : List Char → Bool) (l : List Char)
    (h : searchML p l = true) : ∃ n, p (l.drop n) = true := by
  rw [searchML, Bool.or_eq_true] at h
  rcases h with h1 | h2
  · exact ⟨0, by simpa using h1⟩
  · exact searchTail_exists p l h2

/-- A position where the Android detection regex matches also carries a
match of the Android split regex: the split pattern differs only in
dropping the `^` anchor, capturing group 1 and making the whitespace
before AM/PM optional (`\s?`), so every detection-match witness is among
the split pattern's candidates. -/
theorem aDetect_isSome_aMatch (l : List Char) (h : aDetectAt l = true) :
    (aMatchAt l).isSome = true := by
  have h1 : aDetectM l ≠ [] := by
    rw [aDetectAt, Bool.not_eq_true'] at h
    intro hc
    rw [hc] at h
    simp at h
  have h2 : ∃ r ∈ aStampCore l, mSeq aOptAmpmDetect aTrailer r ≠ [] :=
    (flatMap_ne_nil_iff _ _).mp h1
  obtain ⟨r, hr, h3⟩ := h2
  obtain ⟨r2, hr2, h5⟩ := (flatMap_ne_nil_iff _ _).mp h3
  have hdetect : aOptAmpmDetect r = (mWs r).flatMap (mRepeat (mChar isAPM) 2) ++ [r] := rfl
  have hsplit : aOptAmpmSplit r =
      (mWs r).flatMap (mRepeat (mChar isAPM) 2) ++
        ((mRepeat (mChar isAPM) 2) r ++ [r]) := by
    show (mSeq (mOpt mWs) (mRepeat (mChar isAPM) 2)) r ++ [r] = _
    show ((mWs r ++ [r]).flatMap (mRepeat (mChar isAPM) 2)) ++ [r] = _
    rw [List.flatMap_append, List.append_assoc]
    simp
  have hr2s : r2 ∈ aOptAmpmSplit r := by
    rw [hdetect] at hr2
    rw [hsplit]
    rcases List.mem_append.mp hr2 with hl2 | hl2
    · exact List.mem_append.mpr (Or.inl hl2)
    · exact List.mem_append.mpr (Or.inr (List.mem_append.mpr (Or.inr hl2)))
  have hmem : r2 ∈ aGroupM l := List.mem_flatMap.mpr ⟨r, hr, hr2s⟩
  have hfind : ((aGroupM l).find? (fun x => !(aTrailer x).isEmpty)).isSome :=
    List.find?_isSome.mpr ⟨r2, hmem, by
      rw [Bool.not_eq_true', isEmpty_false_of_ne_nil h5]⟩
  obtain ⟨r3, hr3⟩ := Option.isSome_iff_exists.mp hfind
  have hp3 : aTrailer r3 ≠ [] := by
    have hb := List.find?_some hr3
    rw [Bool.not_eq_true'] at hb
    intro hc
    rw [hc] at hb
    simp at hb
  rw [aMatchAt]
  split
  · next heq =>
    rw [hr3] at heq
    cases heq
  · next r5 heq =>
    rw [hr3] at heq
    injection heq with heq
    subst heq
    split
    · next heq2 => exact absurd (List.head?_eq_none_iff.mp heq2) hp3
    · next r4 heq2 => rfl

theorem finditer_ne_nil (mA : List Char → Option MRes) (hnil : mA [] = none) :
    ∀ (l : List Char) (pos n : Nat), (mA (l.drop n)).isSome = true →
      finditer mA l pos ≠ [] := by
  intro l
  induction l with
  | nil =>
    intro pos n h
    rw [List.drop_nil, hnil] at h
    cases h
  | cons c rest ih =>
    intro pos n h
    show finditerF mA (rest.length + 1) (c :: rest) pos ≠ []
    simp only [finditerF]
    cases hm : mA (c :: rest) with
    | some m => by_cases hz : m.len = 0 <;> simp [hz]
    | none =>
      cases n with
      | zero =>
        rw [List.drop_zero, hm] at h
        cases h
      | succ n => exact ih (pos + 1) n (by simpa using h)

/-- Android classification forces at least one split-regex match. -/
theorem detect_android_nonempty (l : List Char)
    (hdet : detectFormat l = FmtKind.android) : finditer aMatchAt l 0 ≠ [] := by
  cases ha : searchML aDetectAt l with
  | false =>
    exfalso
    cases hi : searchML iDetectAt l <;> simp [detectFormat, ha, hi] at hdet
  | true =>
    obtain ⟨n, hn⟩ := searchML_exists aDetectAt l ha
    exact finditer_ne_nil aMatchAt rfl l 0 n (aDetect_isSome_aMatch _ hn)

/-- iPhone classification forces at least one split-regex match. -/
theorem detect_iphone_nonempty (l : List Char)
    (hdet : detectFormat l = FmtKind.iphone) : finditer iMatchAt l 0 ≠ [] := by
  cases ha : searchML aDetectAt l with
  | true => simp [detectFormat, ha] at hdet
  | false =>
    cases hi : searchML iDetectAt l with
    | false => simp [detectFormat, ha, hi] at hdet
    | true =>
      obtain ⟨n, hn⟩ := searchML_exists iDetectAt l hi
      exact finditer_ne_nil iMatchAt rfl l 0 n (by simpa [iDetectAt] using hn)

/-- Which classified error `preprocess` raises, characterized. -/
theorem preprocessA_error_iff (p : List Char → Option DateTime) (s e : String) :
    preprocessA p s = .error e ↔
      (detectFormat (normNL s.data) = FmtKind.unknown ∧ e = errUnsupported) ∨
      (detectFormat (normNL s.data) = FmtKind.android ∧
        finditer aMatchAt (normNL s.data) 0 = [] ∧ e = errNoAndroid) ∨
      (detectFormat (normNL s.data) = FmtKind.iphone ∧
        finditer iMatchAt (normNL s.data) 0 = [] ∧ e = errNoIphone) := by
  simp only [preprocessA, preTriples]
  cases hdet : detectFormat (normNL s.data) with
  | android =>
    cases hsp : (finditer aMatchAt (normNL s.data) 0).isEmpty with
    | true =>
      have h0 : finditer aMatchAt (normNL s.data) 0 = [] := List.isEmpty_iff.mp hsp
      rw [if_neg (by simp), if_pos rfl, if_pos rfl]
      simp only [Except.map]
      constructor
      · intro hh
        injection hh with hh
        exact Or.inr (Or.inl ⟨by trivial, h0, hh.symm⟩)
      · rintro (⟨h1, h2⟩ | ⟨h1, h2, h3⟩ | ⟨h1, h2, h3⟩)
        · cases h1
        · rw [h3]
        · cases h1
    | false =>
      have h0 : finditer aMatchAt (normNL s.data) 0 ≠ [] := ne_nil_of_isEmpty_false hsp
      rw [if_neg (by simp), if_pos rfl, if_neg (by simp)]
      simp only [Except.map]
      constructor
      · intro hh
        cases hh
      · rintro (⟨h1, h2⟩ | ⟨h1, h2, h3⟩ | ⟨h1, h2, h3⟩)
        · cases h1
        · exact absurd h2 h0
        · cases h1
  | iphone =>
    cases hsp : (finditer iMatchAt (normNL s.data) 0).isEmpty with
    | true =>
      have h0 : finditer iMatchAt (normNL s.data) 0 = [] := List.isEmpty_iff.mp hsp
      rw [if_neg (by simp), if_neg (by simp), if_pos rfl, if_pos rfl]
      simp only [Except.map]
      constructor
      · intro hh
        injection hh with hh
        exact Or.inr (Or.inr ⟨by trivial, h0, hh.symm⟩)
      · rintro (⟨h1, h2⟩ | ⟨h1, h2, h3⟩ | ⟨h1, h2, h3⟩)
        · cases h1
        · cases h1
        · rw [h3]
    | false =>
      have h0 : finditer iMatchAt (normNL s.data) 0 ≠ [] := ne_nil_of_isEmpty_false hsp
      rw [if_neg (by simp), if_neg (by simp), if_pos rfl, if_neg (by simp)]
      simp only [Except.map]
      constructor
      · intro hh
        cases hh
      · rintro (⟨h1, h2⟩ | ⟨h1, h2, h3⟩ | ⟨h1, h2, h3⟩)
        · cases h1
        · cases h1
        · exact absurd h2 h0
  | unknown =>
    rw [if_pos rfl]
    simp only [Except.map]
    constructor
    · intro hh
      injection hh with hh
      exact Or.inl ⟨by trivial, hh.symm⟩
    · rintro (⟨h1, h2⟩ | ⟨h1, h2, h3⟩ | ⟨h1, h2, h3⟩)
      · rw [h2]
      · cases h1
      · cases h1

/-- C4 (amended): the classified no-messages errors are raised exactly when
the detected format's split regex has zero matches, and they are distinct
from the unknown-format error; however, whenever detection succeeds the
split regex — which only relaxes the detection regex — has at least one
match, so the no-messages branches are unreachable (there is no input on
which detection succeeds and segmentation finds nothing). -/
theorem c4_no_messages_error :
    (∀ (p : List Char → Option DateTime) (s : String),
        (preprocessA p s = .error errNoAndroid ↔
          detectFormat (normNL s.data) = FmtKind.android ∧
            finditer aMatchAt (normNL s.data) 0 = []) ∧
        (preprocessA p s = .error errNoIphone ↔
          detectFormat (normNL s.data) = FmtKind.iphone ∧
            finditer iMatchAt (normNL s.data) 0 = [])) ∧
    (errNoAndroid ≠ errUnsupported ∧ errNoIphone ≠ errUnsupported ∧
      errNoAndroid ≠ errNoIphone) ∧
    (∀ l : List Char, detectFormat l = FmtKind.android → finditer aMatchAt l 0 ≠ []) ∧
    (∀ l : List Char, detectFormat l = FmtKind.iphone → finditer iMatchAt l 0 ≠ []) := by
  have hne1 : errNoAndroid ≠ errUnsupported := by decide
  have hne2 : errNoIphone ≠ errUnsupported := by decide
  have hne3 : errNoAndroid ≠ errNoIphone := by decide
  refine ⟨?_, ⟨hne1, hne2, hne3⟩, detect_android_nonempty, detect_iphone_nonempty⟩
  intro p s
  constructor
  · rw [preprocessA_error_iff]
    constructor
    · rintro ((⟨h1, h2⟩) | (⟨h1, h2, h3⟩) | (⟨h1, h2, h3⟩))
      · exact absurd h2 hne1
      · exact ⟨h1, h2⟩
      · exact absurd h3 hne3
    · rintro ⟨h1, h2⟩
      exact Or.inr (Or.inl ⟨h1, h2, rfl⟩)
  · rw [preprocessA_error_iff]
    constructor
    · rintro ((⟨h1, h2⟩) | (⟨h1, h2, h3⟩) | (⟨h1, h2, h3⟩))
      · exact absurd h2 hne2
      · exact absurd h3 hne3.symm
      · exact ⟨h1, h2⟩
    · rintro ⟨h1, h2⟩
      exact Or.inr (Or.inr ⟨h1, h2, rfl⟩)

/-- C4 counterexample: the claimed reachability fails — there is no input
at all on which format detection succeeds while segmentation yields zero
matches. -/
theorem c4_counterexample :
    (∃ l : List Char,
        (detectFormat l = FmtKind.android ∧ finditer aMatchAt l 0 = []) ∨
        (detectFormat l = FmtKind.iphone ∧ finditer iMatchAt l 0 = [])) ↔ False := by
  constructor
  · rintro ⟨l, ⟨hd, hf⟩ | ⟨hd, hf⟩⟩
    · exact detect_android_nonempty l hd hf
    · exact detect_iphone_nonempty l hd hf
  · exact False.elim

theorem c4_witness :
    (preprocessA (fun _ => none) "hello" = .error errNoAndroid ↔
        detectFormat (normNL "hello".data) = FmtKind.android ∧
          finditer aMatchAt (normNL "hello".data) 0 = []) ∧
      detectFormat "5/1/24, 9:00 - A: b".data = FmtKind.android ∧
      finditer aMatchAt "5/1/24, 9:00 - A: b".data 0 ≠ [] :=
  ⟨(c4_no_messages_error.1 (fun _ => none) "hello").1, by decide,
    c4_no_messages_error.2.2.1 "5/1/24, 9:00 - A: b".data (by decide)⟩

theorem c7_witness :
    tryParse androidFmts "5/1/24, 9:00 am".data = some ⟨2024, 1, 5, 9, 0, 0⟩ ∧
      mkDateVal androidFmts "nonsense".data = DateVal.raw "nonsense".data ∧
      assembleRows (fun _ => none) [(DateVal.raw "nonsense".data, "A", "b")] = [] :=
  ⟨c7_date_normalizer.1 androidFmts [fmtDMY4HM, fmtDMY4IMp, fmtDMY2HM] [] fmtDMY2IMp
      "5/1/24, 9:00 am".data ⟨2024, 1, 5, 9, 0, 0⟩ rfl (by decide) rfl,
    c7_date_normalizer.2.1 androidFmts "nonsense".data (by decide),
    (c7_date_normalizer.2.2 (fun _ => none) "nonsense".data "A" "b").1 rfl⟩

/-! ## C5: round-trip segmentation -/

/-- Scanning past a region where no match starts. -/
theorem finditer_skip (mA : List Char → Option MRes) :
    ∀ (b rest : List Char) (pos : Nat),
      (∀ k < b.length, mA ((b ++ rest).drop k) = none) →
      finditer mA (b ++ rest) pos = finditer mA rest (pos + b.length) := by
  intro b
  induction b with
  | nil =>
    intro rest pos hnone
    simp
  | cons c b2 ih =>
    intro rest pos hnone
    have h0 : mA (c :: (b2 ++ rest)) = none := by
      have hh := hnone 0 (by simp)
      simpa using hh
    have ih2 := ih rest (pos + 1) (fun k hk => by
      have hh := hnone (k + 1) (by simp only [List.length_cons]; omega)
      simpa using hh)
    rw [show (c :: b2) ++ rest = c :: (b2 ++ rest) from rfl,
      finditer_skip_one mA c (b2 ++ rest) pos h0, ih2]
    have harith : pos + 1 + b2.length = pos + (c :: b2).length := by
      simp only [List.length_cons]
      omega
    rw [harith]

/-- The generalized round-trip invariant, by induction along the message
list: the scan of the remaining transcript finds exactly the remaining
headers, and the chunks cut out of the full text are the stripped bodies. -/
theorem seg_main (txtL : List Char) :
    ∀ (msgs : List (List Char × List Char)) (pos : Nat),
      segHyp msgs = true →
      txtL.drop pos = flatMsgs msgs →
      txtL.length = pos + (flatMsgs msgs).length →
      (finditer aMatchAt (flatMsgs msgs) pos).length = msgs.length ∧
      (buildRaw txtL androidFmts (finditer aMatchAt (flatMsgs msgs) pos)).map
          (fun x => x.2) = msgs.map (fun m => pyStrip m.2) ∧
      (msgs = [] → finditer aMatchAt (flatMsgs msgs) pos = []) ∧
      (∀ hh bb rr, msgs = (hh, bb) :: rr →
        ∃ tl, finditer aMatchAt (flatMsgs msgs) pos =
          (pos, (⟨0, hh.length - 3, hh.length⟩ : MRes)) :: tl) := by
  intro msgs
  induction msgs with
  | nil =>
    intro pos hseg hdrop hlen
    refine ⟨rfl, rfl, fun _ => rfl, ?_⟩
    intro hh bb rr hc
    cases hc
  | cons m rest ih =>
    obtain ⟨h, b⟩ := m
    intro pos hseg hdrop hlen
    rw [segHyp] at hseg
    simp only [Bool.and_eq_true, decide_eq_true_eq, List.all_eq_true,
      List.mem_range] at hseg
    obtain ⟨⟨⟨h0, h1⟩, h2⟩, h3⟩ := hseg
    have hdropA : (flatMsgs ((h, b) :: rest)).drop h.length = b ++ flatMsgs rest := by
      rw [show flatMsgs ((h, b) :: rest) = h ++ (b ++ flatMsgs rest) from by
        rw [flatMsgs, List.append_assoc]]
      exact List.drop_left h (b ++ flatMsgs rest)
    have hne : flatMsgs ((h, b) :: rest) ≠ [] := by
      intro hc
      have hlc := congrArg List.length hc
      simp only [flatMsgs, List.length_append, List.length_nil] at hlc
      omega
    have hstep : finditer aMatchAt (flatMsgs ((h, b) :: rest)) pos =
        (pos, (⟨0, h.length - 3, h.length⟩ : MRes)) ::
          finditer aMatchAt (b ++ flatMsgs rest) (pos + h.length) := by
      have hms := finditer_match_step aMatchAt (flatMsgs ((h, b) :: rest)) pos
        ⟨0, h.length - 3, h.length⟩ hne h1 (by show h.length ≠ 0; omega)
      rw [hms]
      show (pos, (⟨0, h.length - 3, h.length⟩ : MRes)) ::
          finditer aMatchAt ((flatMsgs ((h, b) :: rest)).drop h.length) (pos + h.length) =
        (pos, (⟨0, h.length - 3, h.length⟩ : MRes)) ::
          finditer aMatchAt (b ++ flatMsgs rest) (pos + h.length)
      rw [hdropA]
    have hskip : finditer aMatchAt (b ++ flatMsgs rest) (pos + h.length) =
        finditer aMatchAt (flatMsgs rest) (pos + h.length + b.length) :=
      finditer_skip aMatchAt b (flatMsgs rest) (pos + h.length) h2
    have hdrop2 : txtL.drop (pos + h.length + b.length) = flatMsgs rest := by
      have e1 : txtL.drop (pos + h.length + b.length) =
          (txtL.drop pos).drop (h.length + b.length) := by
        rw [List.drop_drop]
        congr 1
        omega
      rw [e1, hdrop]
      rw [show flatMsgs ((h, b) :: rest) = (h ++ b) ++ flatMsgs rest from by
        rw [flatMsgs]]
      rw [show h.length + b.length = (h ++ b).length from (List.length_append h b).symm]
      exact List.drop_left (h ++ b) (flatMsgs rest)
    have hlen2 : txtL.length = pos + h.length + b.length + (flatMsgs rest).length := by
      rw [hlen]
      rw [show flatMsgs ((h, b) :: rest) = (h ++ b) ++ flatMsgs rest from by
        rw [flatMsgs]]
      simp only [List.length_append]
      omega
    obtain ⟨ihl, ihmap, ihnil, ihcons⟩ :=
      ih (pos + h.length + b.length) h3 hdrop2 hlen2
    have hdropB : txtL.drop (pos + h.length) = b ++ flatMsgs rest := by
      rw [(List.drop_drop h.length pos txtL).symm, hdrop, hdropA]
    rw [hstep, hskip]
    refine ⟨?_, ?_, ?_, ?_⟩
    · simp only [List.length_cons, ihl]
    · cases rest with
      | nil =>
        rw [show finditer aMatchAt (flatMsgs ([] : List (List Char × List Char)))
            (pos + h.length + b.length) = [] from rfl]
        simp only [buildRaw, List.map_cons, List.map_nil]
        have hchunk : sliceL txtL (pos + h.length) txtL.length = b := by
          rw [sliceL, hdropB]
          rw [show flatMsgs ([] : List (List Char × List Char)) = [] from rfl,
            List.append_nil]
          have hsub : txtL.length - (pos + h.length) = b.length := by
            rw [hlen2]
            simp only [flatMsgs, List.length_nil]
            omega
          rw [hsub, List.take_length]
        rw [hchunk]
      | cons m2 rest2 =>
        obtain ⟨tl, htl⟩ := ihcons m2.1 m2.2 rest2 (by
          cases m2
          rfl)
        rw [htl] at ihmap ⊢
        simp only [buildRaw, List.map_cons] at ihmap ⊢
        have hchunk : sliceL txtL (pos + h.length) (pos + h.length + b.length) = b := by
          rw [sliceL, hdropB]
          have hsub : pos + h.length + b.length - (pos + h.length) = b.length := by
            omega
          rw [hsub, List.take_left]
        rw [hchunk, ihmap]
    · intro hc
      cases hc
    · intro hh bb rr hc
      cases hc
      exact ⟨finditer aMatchAt (flatMsgs rest) (pos + h.length + b.length), rfl⟩

/-- C5: for a transcript concatenated from synthetic messages whose headers
are valid Convention-A timestamp headers (exactly what the split regex
matches) and whose bodies contain no timestamp match, the segmenter yields
exactly `N` chunks, and chunk `i` is body `i` trimmed of leading/trailing
whitespace (multi-line bodies staying intact in one chunk). -/
theorem c5_roundtrip_segmentation (msgs : List (List Char × List Char))
    (hseg : segHyp msgs = true) :
    (buildRaw (flatMsgs msgs) androidFmts (finditer aMatchAt (flatMsgs msgs) 0)).map
        (fun x => x.2) = msgs.map (fun m => pyStrip m.2) ∧
      (finditer aMatchAt (flatMsgs msgs) 0).length = msgs.length := by
  obtain ⟨h1, h2, h3, h4⟩ := seg_main (flatMsgs msgs) msgs 0 hseg
    (by rw [List.drop_zero]) (by omega)
  exact ⟨h2, h1⟩

theorem c5_witness :
    segHyp c5msgs = true ∧
      (buildRaw (flatMsgs c5msgs) androidFmts (finditer aMatchAt (flatMsgs c5msgs) 0)).map
          (fun x => x.2) = c5msgs.map (fun m => pyStrip m.2) ∧
      (finditer aMatchAt (flatMsgs c5msgs) 0).length = c5msgs.length ∧
      pyStrip "A: Hello\nthere\n".data = "A: Hello\nthere".data :=
  ⟨by decide, (c5_roundtrip_segmentation c5msgs (by decide)).1,
    (c5_roundtrip_segmentation c5msgs (by decide)).2, by decide⟩

end WAChat
